import Mathlib

/-!
Verification of the client-side job-orchestration and live-log-streaming
controller of the Agents page (`src/frontend/src/pages/Agents.jsx`).

The embedding models:
  * the `jobs` registry (`jobId -> {status, agent, logs, output, output_error}`),
  * the SSE side table `sseRefs` (`jobId -> EventSource`), modelled as the set
    of job ids holding a live stream handle,
  * `startSseForJob` with its `onmessage`, `close`-event and `onerror` handlers,
  * `pollUntilDone`, driven by a finite trace of poll responses (each status
    query either throws or returns a status),
  * `fetchOutputAndAttach`, driven by the outcome of the output request,
  * `runAgent` and `runPipeline`, driven by an environment fixing the outcome
    of the start request, the poll trace of each stage and each fetch outcome.

Network interactions are modelled by explicit response traces; all state
updates are translated directly from the JavaScript source.
-/

namespace AgentsPage

/-- The backend job status strings: `queued`, `running`, `completed`, `failed`. -/
inductive Status
  | queued
  | running
  | completed
  | failed
  deriving DecidableEq, Repr, Fintype

/-- `status === "completed" || status === "failed"`: the terminal statuses. -/
def Status.isTerminal : Status → Bool
  | .completed => true
  | .failed => true
  | _ => false

/-- One entry of the `jobs` registry: `{status, agent, logs, output, output_error}`.
Fields a JavaScript object may lack are `Option`s; the output payload is kept
opaque as a string. `{}` (all fields absent, `logs` empty) is the default used
by the handlers when a job id has no entry yet. -/
structure JobEntry where
  status : Option Status := none
  agent : Option String := none
  logs : List String := []
  output : Option String := none
  output_error : Option String := none
  deriving DecidableEq, Repr

/-- The `jobs` registry: a map from job id to entry (`useState({})`). -/
def Registry := String → Option JobEntry

/-- The initial empty registry. -/
def Registry.empty : Registry := fun _ => none

/-- `{...prev, [jobId]: entry}`: replace the binding of one key. -/
def Registry.set (R : Registry) (k : String) (v : JobEntry) : Registry :=
  fun k' => if k' = k then some v else R k'

/-- The status recorded for a job id (`none` when the entry or field is absent). -/
def Registry.statusOf (R : Registry) (k : String) : Option Status :=
  ((R k).getD {}).status

/-- The log lines recorded for a job id (`[]` when the entry is absent). -/
def Registry.logsOf (R : Registry) (k : String) : List String :=
  ((R k).getD {}).logs

/-- The output recorded for a job id (`none` when the entry or field is absent). -/
def Registry.outputOf (R : Registry) (k : String) : Option String :=
  ((R k).getD {}).output

/-- The output-error marker recorded for a job id. -/
def Registry.outputErrorOf (R : Registry) (k : String) : Option String :=
  ((R k).getD {}).output_error

/-- JavaScript `x || y` on an optional status: every status string is a
non-empty string, hence truthy, so only an absent status falls through. -/
def jsOrStatus : Option Status → Status → Status
  | some s, _ => s
  | none, d => d

/-- JavaScript `x || y` on an optional string: absent and `""` are falsy. -/
def jsOrString : Option String → String → String
  | some a, b => if a = "" then b else a
  | none, b => b

/-- The ASCII whitespace characters trimmed by `String.prototype.trim` and
matched by `\s` (the log stream carries ASCII text). -/
def jsWhitespace (c : Char) : Bool :=
  c = ' ' || c = '\t' || c = '\n' || c = '\r' || c = '\x0b' || c = '\x0c'

/-- `(e.data || "").trim()`: strip leading and trailing whitespace. -/
def jsTrim (s : String) : String :=
  ⟨((s.data.dropWhile jsWhitespace).reverse.dropWhile jsWhitespace).reverse⟩

/-- `!line || /^\s+$/.test(line)`: the guard discarding a trimmed line that is
empty or (unreachably after trimming) consists only of whitespace. -/
def emptyOrWs (line : String) : Bool :=
  line == "" || (line != "" && line.data.all jsWhitespace)

/-- `es.onmessage`: trim the received data, drop it if empty or whitespace-only,
otherwise merge `{logs: [...j.logs, line], status: j.status || "running",
agent: j.agent || ""}` over the entry (`prev[jobId] || { logs: [] }`). -/
def onMessage (jobId : String) (data : String) (R : Registry) : Registry :=
  let line := jsTrim data
  if emptyOrWs line then R
  else
    let j := (R jobId).getD {}
    R.set jobId
      { j with
        logs := j.logs ++ [line]
        status := some (jsOrStatus j.status .running)
        agent := some (jsOrString j.agent "") }

/-- Deliver a sequence of stream messages in receipt order. -/
def onMessages (jobId : String) (lines : List String) (R : Registry) : Registry :=
  lines.foldl (fun acc l => onMessage jobId l acc) R

/-- The `sseRefs.current` side table: which job ids hold a live `EventSource`.
`true` models a stored handle (always truthy in the source). -/
def SseTable := String → Bool

/-- The initial empty side table. -/
def SseTable.empty : SseTable := fun _ => false

/-- Rebind one key of the side table. -/
def SseTable.set (t : SseTable) (k : String) (v : Bool) : SseTable :=
  fun k' => if k' = k then v else t k'

/-- `startSseForJob`: `if (sseRefs.current[jobId]) return;` else open a new
`EventSource` and record it. The boolean result reports whether a new
connection was opened. -/
def startSseForJob (jobId : String) (t : SseTable) : SseTable × Bool :=
  if t jobId then (t, false)
  else (t.set jobId true, true)

/-- The `close` event listener: `es.close(); delete sseRefs.current[jobId]`. -/
def sseCloseHandler (jobId : String) (t : SseTable) : SseTable :=
  t.set jobId false

/-- `es.onerror`: a deliberate no-op (`// ignore - connection will close when
job completes on server`). -/
def sseErrorHandler (jobId : String) (t : SseTable) : SseTable :=
  t

/-- One status query of `pollUntilDone`: the `axios.get` either throws or
returns `r.data` with a status. -/
inductive PollResponse
  | err
  | ok (status : Status)
  deriving DecidableEq, Repr

/-- The registry write performed when a terminal status is observed:
`setJobs(prev => ({ ...prev, [jobId]: { ...(prev[jobId] || {}), status } }))`. -/
def setStatus (jobId : String) (s : Status) (R : Registry) : Registry :=
  R.set jobId { ((R jobId).getD {}) with status := some s }

/-- `pollUntilDone`: iterate the poll trace; a thrown query is ignored, a
non-terminal status is skipped, and the first terminal status is written to
the registry and returned. `none` means the trace ends with the loop still
polling (the source loop has no other exit). -/
def pollUntilDone (jobId : String) (R : Registry) :
    List PollResponse → Option (Status × Registry)
  | [] => none
  | .err :: rest => pollUntilDone jobId R rest
  | .ok s :: rest =>
    if s = .completed ∨ s = .failed then some (s, setStatus jobId s R)
    else pollUntilDone jobId R rest

/-- The outcome of the output request in `fetchOutputAndAttach`. -/
inductive FetchResult
  | ok (output : String)
  | err
  deriving DecidableEq, Repr

/-- `fetchOutputAndAttach`: after the grace delay, fetch the agent's output;
on success merge `{output}` over the entry, on failure merge
`{output_error: "Output not available yet"}` (the absent-entry default is
`{ logs: [], status: "completed", agent: agentName }`). -/
def fetchOutputAndAttach (agentName jobId : String) (res : FetchResult)
    (R : Registry) : Registry :=
  match res with
  | .ok out =>
    let j := (R jobId).getD { logs := [], status := some .completed, agent := some agentName }
    R.set jobId { j with output := some out }
  | .err =>
    let j := (R jobId).getD { logs := [], status := some .completed, agent := some agentName }
    R.set jobId { j with output_error := some "Output not available yet" }

/-- The environment of one `runAgent` call: the outcome of the start request
(`POST /agents/{user}/run/{agent}` returns `{job_id}` or throws), the trace of
poll responses, and the outcome of the output fetch. -/
structure RunEnv where
  start : Except Unit String
  pollTrace : List PollResponse
  fetch : FetchResult

/-- The state a finished `runAgent`/`runPipeline` leaves behind, plus whether
the catch block raised its user-visible alert. -/
structure RunResult where
  jobs : Registry
  sse : SseTable
  alerted : Bool

/-- `runAgent`: start the job; on a thrown start request, alert. Otherwise
record `{status: "queued", logs: [], agent}`, attach the stream, await the
poller, then await the output fetch. `none` means the poll trace never
resolves, so the `await pollUntilDone` suspends forever. -/
def runAgent (agentName : String) (env : RunEnv) (R : Registry) (t : SseTable) :
    Option RunResult :=
  match env.start with
  | .error _ => some ⟨R, t, true⟩
  | .ok jobId =>
    let R1 := R.set jobId { status := some .queued, logs := [], agent := some agentName }
    let t1 := (startSseForJob jobId t).1
    match pollUntilDone jobId R1 env.pollTrace with
    | none => none
    | some (_, R2) => some ⟨fetchOutputAndAttach agentName jobId env.fetch R2, t1, false⟩

/-- One stage of a pipeline run: the `{job_id, agent}` pair returned by the
backend, with the poll trace and fetch outcome of that stage. -/
structure StageEnv where
  job_id : String
  agent : String
  pollTrace : List PollResponse
  fetch : FetchResult
  deriving DecidableEq, Repr

/-- Ghost observation points of one pipeline stage: the stage is started
(entry recorded, stream attached), its poller resolves, its output fetch
resolves. -/
inductive EventKind
  | started
  | pollResolved
  | fetchResolved
  deriving DecidableEq, Repr

/-- The three events of stage `i`, in the order the stage performs them. -/
def stageEvents (i : Nat) : List (Nat × EventKind) :=
  [(i, .started), (i, .pollResolved), (i, .fetchResolved)]

/-- The `for (const j of jobsOrdered)` loop of `runPipeline`: each stage in
order records its entry, attaches its stream, awaits its poller, awaits its
output fetch, then the loop moves to the next stage. `i` numbers the stages
for the ghost event trace; `none` means some stage's poll trace never
resolves (the loop suspends there forever). -/
def runStages : List StageEnv → Nat → Registry → SseTable →
    Option (Registry × SseTable × List (Nat × EventKind))
  | [], _, R, t => some (R, t, [])
  | st :: rest, i, R, t =>
    let R1 := R.set st.job_id { status := some .queued, logs := [], agent := some st.agent }
    let t1 := (startSseForJob st.job_id t).1
    match pollUntilDone st.job_id R1 st.pollTrace with
    | none => none
    | some (_, R2) =>
      let R3 := fetchOutputAndAttach st.agent st.job_id st.fetch R2
      match runStages rest (i + 1) R3 t1 with
      | none => none
      | some (Rf, tf, tr) => some (Rf, tf, stageEvents i ++ tr)

/-- A finished pipeline run, with the ghost event trace of its stages. -/
structure PipeResult where
  jobs : Registry
  sse : SseTable
  alerted : Bool
  trace : List (Nat × EventKind)

/-- `runPipeline`: one `POST /agents/{user}/run/pipeline` yields the ordered
`{jobs: [{job_id, agent}, ...]}` list, or throws — in which case the catch
block alerts and nothing is recorded. Otherwise the stages run strictly in
order. -/
def runPipeline (startRes : Except Unit (List StageEnv)) (R : Registry)
    (t : SseTable) : Option PipeResult :=
  match startRes with
  | .error _ => some ⟨R, t, true, []⟩
  | .ok stages =>
    match runStages stages 0 R t with
    | none => none
    | some (Rf, tf, tr) => some ⟨Rf, tf, false, tr⟩

/-- The individual registry writes the page performs: entry creation by
`runAgent`/`runPipeline`, a stream message, the poller's terminal write, and
the output fetcher's write. -/
inductive Step
  | create (jobId agentName : String)
  | message (jobId data : String)
  | pollWrite (jobId : String) (s : Status)
  | fetchAttach (agentName jobId : String) (res : FetchResult)

/-- Apply one registry write. -/
def Step.apply : Step → Registry → Registry
  | .create jobId agentName, R =>
    R.set jobId { status := some .queued, logs := [], agent := some agentName }
  | .message jobId data, R => onMessage jobId data R
  | .pollWrite jobId s, R => setStatus jobId s R
  | .fetchAttach agentName jobId res, R => fetchOutputAndAttach agentName jobId res R

/-- The poller only ever performs terminal writes (`pollUntilDone` checks
`status === "completed" || status === "failed"` before writing); a step
sequence drawn from the page's actors satisfies this. -/
def Step.terminalPollsOnly : Step → Prop
  | .pollWrite _ s => s.isTerminal = true
  | _ => True

/-- The event kind at offset `p % 3` inside a stage's three-event block. -/
def kindOf : Nat → EventKind
  | 0 => .started
  | 1 => .pollResolved
  | _ => .fetchResolved

/-- Concrete registry with one completed job, used to instantiate theorems. -/
def R1w : Registry :=
  Registry.empty.set "j1"
    { status := some .completed, agent := some "scoring_agent", logs := ["step 1"] }

/-- Concrete job entry with logs already written, used to instantiate theorems. -/
def j9w : JobEntry :=
  { status := some .running, agent := some "enrichment_agent", logs := ["line a", "line b"] }

/-- Concrete registry holding `j9w` under `"j1"`. -/
def R9w : Registry := Registry.empty.set "j1" j9w

/-- Concrete single-run environment: the job is enqueued, the poller observes
`failed`, and the output fetch succeeds. -/
def env6 : RunEnv := ⟨.ok "j1", [.ok .failed], .ok "out"⟩

/-- The state `runAgent` leaves behind under `env6`. -/
def res6 : RunResult :=
  (runAgent "scoring_agent" env6 Registry.empty SseTable.empty).getD
    ⟨Registry.empty, SseTable.empty, true⟩

/-- Concrete single-run environment: one poll error, then `completed`, and a
failing output fetch. -/
def env6b : RunEnv := ⟨.ok "j2", [.err, .ok .completed], .err⟩

/-- The registry state after `runAgent` under `env6b` records the new entry. -/
def R6b : Registry :=
  Registry.empty.set "j2" { status := some .queued, logs := [], agent := some "contact_finder" }

/-- The state `runAgent` leaves behind under `env6b`. -/
def res6b : RunResult :=
  (runAgent "contact_finder" env6b Registry.empty SseTable.empty).getD
    ⟨Registry.empty, SseTable.empty, true⟩

/-- Concrete pipeline: the first stage fails and its fetch errors, the second
completes after one poll error. -/
def stages4w : List StageEnv :=
  [⟨"j1", "enrichment_agent", [.ok .failed], .err⟩,
   ⟨"j2", "scoring_agent", [.err, .ok .completed], .ok "out"⟩]

/-- The result of running `stages4w`. -/
def out4w : PipeResult :=
  (runPipeline (.ok stages4w) Registry.empty SseTable.empty).getD
    ⟨Registry.empty, SseTable.empty, true, []⟩

/-- Concrete two-stage pipeline used to instantiate the sequencing theorem. -/
def stages5w : List StageEnv :=
  [⟨"j1", "employee_finder", [.ok .completed], .ok "o1"⟩,
   ⟨"j2", "contact_finder", [.ok .failed], .err⟩]

/-- The result of running `stages5w`. -/
def out5w : PipeResult :=
  (runPipeline (.ok stages5w) Registry.empty SseTable.empty).getD
    ⟨Registry.empty, SseTable.empty, true, []⟩

/-- Concrete side table with a stream attached for `"j1"`. -/
def t8w : SseTable := SseTable.empty.set "j1" true

/-- Concrete registry with a running job, used to instantiate theorems. -/
def R10w : Registry := Registry.empty.set "j1" { status := some .running }

/-- Concrete registry with a queued job, used to instantiate theorems. -/
def R10q : Registry := Registry.empty.set "j1" { status := some .queued }

/-! ## Basic lemmas about the registry and the side table -/

theorem Registry.set_apply (R : Registry) (k k' : String) (v : JobEntry) :
    R.set k v k' = if k' = k then some v else R k' := rfl

theorem Registry.statusOf_set (R : Registry) (k k' : String) (v : JobEntry) :
    (R.set k v).statusOf k' = if k' = k then v.status else R.statusOf k' := by
  by_cases h : k' = k <;> simp [Registry.statusOf, Registry.set_apply, h]

theorem Registry.isSome_set (R : Registry) (k0 k : String) (v : JobEntry)
    (h : (R k).isSome = true) : ((R.set k0 v) k).isSome = true := by
  by_cases hk : k = k0 <;> simp [Registry.set_apply, hk, h]

theorem Status.isTerminal_iff (s : Status) :
    s.isTerminal = true ↔ (s = .completed ∨ s = .failed) := by
  cases s <;> simp [Status.isTerminal]

/-! ## Lemmas about the poller -/

theorem setStatus_statusOf (jobId k : String) (s : Status) (R : Registry) :
    (setStatus jobId s R).statusOf k = if k = jobId then some s else R.statusOf k := by
  by_cases h : k = jobId <;>
    simp [setStatus, Registry.statusOf, Registry.set_apply, h]

theorem setStatus_outputOf (jobId k : String) (s : Status) (R : Registry) :
    (setStatus jobId s R).outputOf k = R.outputOf k := by
  by_cases h : k = jobId <;>
    simp [setStatus, Registry.outputOf, Registry.set_apply, h]

theorem setStatus_isSome (jobId k : String) (s : Status) (R : Registry)
    (h : (R k).isSome = true) : ((setStatus jobId s R) k).isSome = true :=
  Registry.isSome_set R jobId k _ h

theorem setStatus_self_isSome (jobId : String) (s : Status) (R : Registry) :
    ((setStatus jobId s R) jobId).isSome = true := by
  simp [setStatus, Registry.set_apply]

theorem pollUntilDone_eq_some (jobId : String) (R : Registry) :
    ∀ (trace : List PollResponse) (s : Status) (R' : Registry),
      pollUntilDone jobId R trace = some (s, R') →
      (s = .completed ∨ s = .failed) ∧ R' = setStatus jobId s R := by
  intro trace
  induction trace with
  | nil => intro s R' h; simp [pollUntilDone] at h
  | cons r rest ih =>
    intro s R' h
    cases r with
    | err => exact ih s R' h
    | ok s0 =>
      by_cases h0 : s0 = .completed ∨ s0 = .failed
      · simp only [pollUntilDone, if_pos h0, Option.some.injEq, Prod.mk.injEq] at h
        obtain ⟨rfl, rfl⟩ := h
        exact ⟨h0, rfl⟩
      · simp only [pollUntilDone, if_neg h0] at h
        exact ih s R' h

theorem pollUntilDone_none_of_no_terminal (jobId : String) (R : Registry) :
    ∀ trace : List PollResponse,
      (∀ s0, PollResponse.ok s0 ∈ trace → ¬(s0 = .completed ∨ s0 = .failed)) →
      pollUntilDone jobId R trace = none := by
  intro trace
  induction trace with
  | nil => intro _; rfl
  | cons r rest ih =>
    intro h
    cases r with
    | err => exact ih fun s0 hs0 => h s0 (List.mem_cons_of_mem _ hs0)
    | ok s0 =>
      have h0 : ¬(s0 = .completed ∨ s0 = .failed) := h s0 (List.mem_cons_self _ _)
      simp only [pollUntilDone, if_neg h0]
      exact ih fun s1 hs1 => h s1 (List.mem_cons_of_mem _ hs1)

theorem pollUntilDone_isSome_of_terminal (jobId : String) (R : Registry) :
    ∀ (trace : List PollResponse) (s0 : Status),
      PollResponse.ok s0 ∈ trace → (s0 = .completed ∨ s0 = .failed) →
      (pollUntilDone jobId R trace).isSome = true := by
  intro trace
  induction trace with
  | nil => intro s0 hmem; simp at hmem
  | cons r rest ih =>
    intro s0 hmem h0
    rcases List.mem_cons.mp hmem with heq | hrest
    · subst heq
      simp only [pollUntilDone, if_pos h0, Option.isSome_some]
    · cases r with
      | err => exact ih s0 hrest h0
      | ok s1 =>
        by_cases h1 : s1 = .completed ∨ s1 = .failed
        · simp only [pollUntilDone, if_pos h1, Option.isSome_some]
        · simp only [pollUntilDone, if_neg h1]
          exact ih s0 hrest h0

theorem pollUntilDone_first_terminal (jobId : String) (R : Registry) :
    ∀ (pre : List PollResponse) (s0 : Status) (rest : List PollResponse),
      (∀ s1, PollResponse.ok s1 ∈ pre → ¬(s1 = .completed ∨ s1 = .failed)) →
      (s0 = .completed ∨ s0 = .failed) →
      pollUntilDone jobId R (pre ++ PollResponse.ok s0 :: rest)
        = some (s0, setStatus jobId s0 R) := by
  intro pre
  induction pre with
  | nil =>
    intro s0 rest _ h0
    simp only [List.nil_append, pollUntilDone, if_pos h0]
  | cons r pre ih =>
    intro s0 rest hpre h0
    cases r with
    | err =>
      simp only [List.cons_append, pollUntilDone]
      exact ih s0 rest (fun s1 hs1 => hpre s1 (List.mem_cons_of_mem _ hs1)) h0
    | ok s1 =>
      have h1 : ¬(s1 = .completed ∨ s1 = .failed) := hpre s1 (List.mem_cons_self _ _)
      simp only [List.cons_append, pollUntilDone, if_neg h1]
      exact ih s0 rest (fun s2 hs2 => hpre s2 (List.mem_cons_of_mem _ hs2)) h0

/-! ## Lemmas about the stream message handler -/

theorem jsTrim_of_all_ws (l : String) (h : l.data.all jsWhitespace = true) :
    jsTrim l = "" := by
  have hd : l.data.dropWhile jsWhitespace = [] := by
    rw [List.dropWhile_eq_nil_iff]
    intro x hx
    exact List.all_eq_true.mp h x hx
  simp [jsTrim, hd]

theorem onMessage_of_ws (jobId l : String) (R : Registry)
    (h : emptyOrWs (jsTrim l) = true) : onMessage jobId l R = R := by
  simp [onMessage, h]

theorem onMessage_apply_ne (jobId l k : String) (R : Registry) (h : k ≠ jobId) :
    (onMessage jobId l R) k = R k := by
  by_cases hw : emptyOrWs (jsTrim l) = true <;>
    simp [onMessage, hw, Registry.set_apply, h]

theorem onMessage_logsOf (jobId l : String) (R : Registry) :
    (onMessage jobId l R).logsOf jobId =
      if emptyOrWs (jsTrim l) = true then R.logsOf jobId
      else R.logsOf jobId ++ [jsTrim l] := by
  by_cases hw : emptyOrWs (jsTrim l) = true <;>
    simp [onMessage, hw, Registry.logsOf, Registry.set_apply]

theorem onMessage_statusOf (jobId l k : String) (R : Registry) :
    (onMessage jobId l R).statusOf k =
      if emptyOrWs (jsTrim l) = true then R.statusOf k
      else if k = jobId then some (jsOrStatus (R.statusOf jobId) .running)
      else R.statusOf k := by
  by_cases hw : emptyOrWs (jsTrim l) = true
  · simp [onMessage, hw]
  · by_cases hk : k = jobId <;>
      simp [onMessage, hw, Registry.statusOf, Registry.set_apply, hk]

theorem onMessage_statusOf_of_some (jobId l k : String) (R : Registry) (x : Status)
    (h : R.statusOf k = some x) : (onMessage jobId l R).statusOf k = some x := by
  rw [onMessage_statusOf]
  by_cases hw : emptyOrWs (jsTrim l) = true
  · simp [hw, h]
  · by_cases hk : k = jobId
    · subst hk
      simp [hw, h, jsOrStatus]
    · simp [hw, hk, h]

theorem onMessage_outputOf (jobId l k : String) (R : Registry) :
    (onMessage jobId l R).outputOf k = R.outputOf k := by
  by_cases hw : emptyOrWs (jsTrim l) = true
  · simp [onMessage, hw]
  · by_cases hk : k = jobId <;>
      simp [onMessage, hw, Registry.outputOf, Registry.set_apply, hk]

/-! ## Lemmas about the output fetcher -/

theorem fetch_apply_ne (a jobId k : String) (res : FetchResult) (R : Registry)
    (h : k ≠ jobId) : (fetchOutputAndAttach a jobId res R) k = R k := by
  cases res <;> simp [fetchOutputAndAttach, Registry.set_apply, h]

theorem fetch_statusOf (a jobId k : String) (res : FetchResult) (R : Registry) :
    (fetchOutputAndAttach a jobId res R).statusOf k =
      if k = jobId then
        (match R jobId with
          | some e => e.status
          | none => some .completed)
      else R.statusOf k := by
  cases res <;> by_cases hk : k = jobId <;>
    cases hR : R jobId <;>
      simp [fetchOutputAndAttach, Registry.statusOf, Registry.set_apply, hk, hR]

theorem fetch_isSome (a jobId k : String) (res : FetchResult) (R : Registry)
    (h : (R k).isSome = true) :
    ((fetchOutputAndAttach a jobId res R) k).isSome = true := by
  cases res <;> exact Registry.isSome_set R jobId k _ h

theorem fetch_outputOf_self_of_some (a jobId : String) (out : String) (R : Registry)
    (j : JobEntry) (h : R jobId = some j) :
    (fetchOutputAndAttach a jobId (.ok out) R).outputOf jobId = some out := by
  simp [fetchOutputAndAttach, Registry.outputOf, Registry.set_apply, h]

/-! ## Lemmas about the pipeline loop -/

theorem runStages_nil (i : Nat) (R : Registry) (t : SseTable) :
    runStages [] i R t = some (R, t, []) := rfl

theorem runStages_cons (st : StageEnv) (rest : List StageEnv) (i : Nat)
    (R : Registry) (t : SseTable) :
    runStages (st :: rest) i R t =
      (match pollUntilDone st.job_id
          (R.set st.job_id { status := some .queued, logs := [], agent := some st.agent })
          st.pollTrace with
        | none => none
        | some (_, R2) =>
          match runStages rest (i + 1) (fetchOutputAndAttach st.agent st.job_id st.fetch R2)
              ((startSseForJob st.job_id t).1) with
          | none => none
          | some (Rf, tf, tr) => some (Rf, tf, stageEvents i ++ tr)) := rfl

theorem runStages_isSome (stages : List StageEnv) :
    ∀ (i : Nat) (R : Registry) (t : SseTable),
      (∀ st ∈ stages, ∃ s, PollResponse.ok s ∈ st.pollTrace ∧ s.isTerminal = true) →
      (runStages stages i R t).isSome = true := by
  induction stages with
  | nil => intro i R t _; simp [runStages_nil]
  | cons st rest ih =>
    intro i R t h
    rw [runStages_cons]
    split
    · rename_i hpnone
      obtain ⟨s, hmem, hterm⟩ := h st (List.mem_cons_self _ _)
      have hpoll := pollUntilDone_isSome_of_terminal st.job_id
        (R.set st.job_id { status := some .queued, logs := [], agent := some st.agent })
        st.pollTrace s hmem ((Status.isTerminal_iff s).mp hterm)
      rw [hpnone] at hpoll
      simp at hpoll
    · rename_i s0 R2 hp
      split
      · rename_i hrnone
        have hrest := ih (i + 1) (fetchOutputAndAttach st.agent st.job_id st.fetch R2)
          ((startSseForJob st.job_id t).1)
          (fun st0 hst0 => h st0 (List.mem_cons_of_mem _ hst0))
        rw [hrnone] at hrest
        simp at hrest
      · simp

theorem runStages_preserves_isSome (stages : List StageEnv) :
    ∀ (i : Nat) (R : Registry) (t : SseTable) (Rf : Registry) (tf : SseTable)
      (tr : List (Nat × EventKind)),
      runStages stages i R t = some (Rf, tf, tr) →
      ∀ k, (R k).isSome = true → (Rf k).isSome = true := by
  induction stages with
  | nil =>
    intro i R t Rf tf tr h k hk
    rw [runStages_nil] at h
    simp only [Option.some.injEq, Prod.mk.injEq] at h
    obtain ⟨rfl, -, -⟩ := h
    exact hk
  | cons st rest ih =>
    intro i R t Rf tf tr h k hk
    rw [runStages_cons] at h
    split at h
    · simp at h
    · rename_i s0 R2 hp
      split at h
      · simp at h
      · rename_i Rf2 tf2 tr2 hr
        simp only [Option.some.injEq, Prod.mk.injEq] at h
        obtain ⟨rfl, -, -⟩ := h
        have hR2 : R2 = setStatus st.job_id s0
            (R.set st.job_id { status := some .queued, logs := [], agent := some st.agent }) :=
          (pollUntilDone_eq_some st.job_id _ st.pollTrace s0 R2 hp).2
        refine ih (i + 1) _ _ _ _ _ hr k ?_
        refine fetch_isSome _ _ _ _ _ ?_
        rw [hR2]
        exact setStatus_isSome _ _ _ _ (Registry.isSome_set _ _ _ _ hk)

theorem runStages_stage_entries (stages : List StageEnv) :
    ∀ (i : Nat) (R : Registry) (t : SseTable) (Rf : Registry) (tf : SseTable)
      (tr : List (Nat × EventKind)),
      runStages stages i R t = some (Rf, tf, tr) →
      ∀ st ∈ stages, (Rf st.job_id).isSome = true := by
  induction stages with
  | nil => intro i R t Rf tf tr _ st hst; simp at hst
  | cons st0 rest ih =>
    intro i R t Rf tf tr h st hst
    rw [runStages_cons] at h
    split at h
    · simp at h
    · rename_i s0 R2 hp
      split at h
      · simp at h
      · rename_i Rf2 tf2 tr2 hr
        simp only [Option.some.injEq, Prod.mk.injEq] at h
        obtain ⟨rfl, -, -⟩ := h
        rcases List.mem_cons.mp hst with rfl | hst0
        · have hR2 : R2 = setStatus st.job_id s0
              (R.set st.job_id { status := some .queued, logs := [], agent := some st.agent }) :=
            (pollUntilDone_eq_some st.job_id _ st.pollTrace s0 R2 hp).2
          refine runStages_preserves_isSome rest (i + 1) _ _ _ _ _ hr st.job_id ?_
          refine fetch_isSome _ _ _ _ _ ?_
          rw [hR2]
          exact setStatus_isSome _ _ _ _ (by simp [Registry.set_apply])
        · exact ih (i + 1) _ _ _ _ _ hr st hst0

theorem runStages_trace (stages : List StageEnv) :
    ∀ (i : Nat) (R : Registry) (t : SseTable) (Rf : Registry) (tf : SseTable)
      (tr : List (Nat × EventKind)),
      runStages stages i R t = some (Rf, tf, tr) →
      tr = (List.range stages.length).flatMap fun k => stageEvents (i + k) := by
  induction stages with
  | nil =>
    intro i R t Rf tf tr h
    rw [runStages_nil] at h
    simp only [Option.some.injEq, Prod.mk.injEq] at h
    obtain ⟨-, -, rfl⟩ := h
    simp
  | cons st rest ih =>
    intro i R t Rf tf tr h
    rw [runStages_cons] at h
    split at h
    · simp at h
    · rename_i s0 R2 hp
      split at h
      · simp at h
      · rename_i Rf2 tf2 tr2 hr
        simp only [Option.some.injEq, Prod.mk.injEq] at h
        obtain ⟨-, -, rfl⟩ := h
        have htr2 := ih (i + 1) _ _ _ _ _ hr
        subst htr2
        have hfun : (fun k => stageEvents (i + 1 + k))
            = fun k => stageEvents (i + Nat.succ k) := by
          funext k
          congr 1
          omega
        rw [List.length_cons, List.range_succ_eq_map, List.flatMap_cons,
          List.flatMap_map, hfun]
        simp

theorem runPipeline_error_eq (R : Registry) (t : SseTable) :
    runPipeline (.error ()) R t = some ⟨R, t, true, []⟩ := rfl

theorem runPipeline_ok_eq (stages : List StageEnv) (R : Registry) (t : SseTable) :
    runPipeline (.ok stages) R t =
      (match runStages stages 0 R t with
        | none => none
        | some (Rf, tf, tr) => some ⟨Rf, tf, false, tr⟩) := rfl

/-! ## Positions inside the pipeline event trace -/

theorem stageEvents_length (i : Nat) : (stageEvents i).length = 3 := rfl

theorem stageBlocks_succ (n : Nat) :
    (List.range (n + 1)).flatMap stageEvents
      = (List.range n).flatMap stageEvents ++ stageEvents n := by
  rw [List.range_succ, List.flatMap_append]
  simp

theorem stageBlocks_length (n : Nat) :
    ((List.range n).flatMap stageEvents).length = 3 * n := by
  induction n with
  | zero => rfl
  | succ n ih =>
    rw [stageBlocks_succ, List.length_append, ih, stageEvents_length]
    omega

theorem stageBlocks_getElem (n : Nat) :
    ∀ p, ((List.range n).flatMap stageEvents)[p]? =
      if p < 3 * n then some (p / 3, kindOf (p % 3)) else none := by
  induction n with
  | zero => intro p; simp
  | succ n ih =>
    intro p
    rw [stageBlocks_succ]
    by_cases h : p < 3 * n
    · rw [List.getElem?_append_left (by rw [stageBlocks_length]; exact h), ih p]
      rw [if_pos h, if_pos (by omega)]
    · rw [List.getElem?_append_right (by rw [stageBlocks_length]; omega)]
      rw [stageBlocks_length]
      by_cases h2 : p < 3 * (n + 1)
      · have hd : p / 3 = n := by omega
        have hcases : p - 3 * n = 0 ∨ p - 3 * n = 1 ∨ p - 3 * n = 2 := by omega
        rw [if_pos h2, hd]
        rcases hcases with h3 | h3 | h3 <;> rw [h3] <;>
          · have hm : p % 3 = p - 3 * n := by omega
            rw [hm, h3]
            rfl
      · rw [if_neg h2]
        have h3 : (stageEvents n).length ≤ p - 3 * n := by
          rw [stageEvents_length]; omega
        exact List.getElem?_eq_none h3

/-! ## Claim theorems -/

/-- C1: once a job entry's status is `completed` or `failed`, neither the
stream handler nor the status poller replaces it with `queued` or `running`:
`onmessage` writes `running` only when the status is unset and otherwise keeps
the stored status, and `pollUntilDone` writes only terminal statuses, so a
terminal status only moves forward within the terminal set. -/
theorem status_terminal_monotone (R : Registry) (k jobId data : String)
    (trace : List PollResponse)
    (h : R.statusOf k = some .completed ∨ R.statusOf k = some .failed) :
    (onMessage jobId data R).statusOf k = R.statusOf k
    ∧ (∀ s R', pollUntilDone jobId R trace = some (s, R') →
        R'.statusOf k = some .completed ∨ R'.statusOf k = some .failed) := by
  constructor
  · rcases h with h | h <;> rw [h] <;> exact onMessage_statusOf_of_some _ _ _ _ _ h
  · intro s R' hp
    obtain ⟨hterm, rfl⟩ := pollUntilDone_eq_some jobId R trace s R' hp
    rw [setStatus_statusOf]
    by_cases hk : k = jobId
    · rw [if_pos hk]
      rcases hterm with rfl | rfl
      · exact Or.inl rfl
      · exact Or.inr rfl
    · rw [if_neg hk]
      exact h

/-- Witness for C1: a completed entry survives a further stream message and the
poller's terminal write. -/
theorem status_terminal_monotone_witness :
    (onMessage "j1" " more logs " R1w).statusOf "j1" = R1w.statusOf "j1"
    ∧ ((setStatus "j1" Status.failed R1w).statusOf "j1" = some .completed
        ∨ (setStatus "j1" Status.failed R1w).statusOf "j1" = some .failed) := by
  have hw := status_terminal_monotone R1w "j1" "j1" " more logs "
    [.ok .failed] (Or.inl (by decide))
  exact ⟨hw.1, hw.2 .failed (setStatus "j1" .failed R1w) rfl⟩

/-- C2 counterexample: lines are appended after trimming, not verbatim — the
received line `" hello "` is stored as `"hello"`, so the final log sequence is
not the raw received line sequence restricted to non-whitespace lines. -/
theorem onMessage_appends_trimmed_not_verbatim :
    (onMessages "j1" [" hello "] Registry.empty).logsOf "j1" = ["hello"]
    ∧ (["hello"] : List String) ≠ [" hello "] := by
  constructor
  · decide
  · decide

/-- C2 (amended): a line consisting only of whitespace leaves the registry
unchanged, and the non-whitespace lines are appended in receipt order as their
trimmed forms, so the final log sequence equals the initial one extended by
the trimmed non-whitespace lines in order. -/
theorem onMessages_logs (jobId : String) (lines : List String) (R : Registry) :
    (onMessages jobId lines R).logsOf jobId
      = R.logsOf jobId ++ ((lines.filter fun l => !emptyOrWs (jsTrim l)).map jsTrim)
    ∧ (∀ l, l.data.all jsWhitespace = true → onMessage jobId l R = R) := by
  constructor
  · induction lines generalizing R with
    | nil => simp [onMessages]
    | cons l ls ih =>
      have step : onMessages jobId (l :: ls) R = onMessages jobId ls (onMessage jobId l R) := rfl
      rw [step, ih (onMessage jobId l R), onMessage_logsOf]
      by_cases hw : emptyOrWs (jsTrim l) = true
      · simp [hw, List.filter_cons]
      · simp [hw, List.filter_cons, List.append_assoc]
  · intro l hl
    refine onMessage_of_ws jobId l R ?_
    rw [jsTrim_of_all_ws l hl]
    rfl

/-- Witness for C2 at a concrete message sequence with a whitespace-only line. -/
theorem onMessages_logs_witness :
    (onMessages "j1" [" a ", " \t ", "b"] Registry.empty).logsOf "j1"
      = Registry.empty.logsOf "j1"
        ++ (([" a ", " \t ", "b"].filter fun l => !emptyOrWs (jsTrim l)).map jsTrim)
    ∧ onMessage "j1" " \t " Registry.empty = Registry.empty := by
  have hw := onMessages_logs "j1" [" a ", " \t ", "b"] Registry.empty
  exact ⟨hw.1, hw.2 " \t " (by decide)⟩

/-- C3: `pollUntilDone` resolves exactly when a status query returns a
terminal status: a thrown query is swallowed and the loop continues with the
remaining responses; the loop resolves with the first terminal status
returned, performing exactly that single status write; and when no terminal
status is returned it neither resolves, nor writes, nor rejects — in
particular a thrown query never marks the job failed. -/
theorem pollUntilDone_resolution (jobId : String) (R : Registry)
    (trace : List PollResponse) :
    (∀ rest, pollUntilDone jobId R (.err :: rest) = pollUntilDone jobId R rest)
    ∧ (∀ s R', pollUntilDone jobId R trace = some (s, R') →
        s.isTerminal = true ∧ R' = setStatus jobId s R)
    ∧ (∀ s0, PollResponse.ok s0 ∈ trace → s0.isTerminal = true →
        (pollUntilDone jobId R trace).isSome = true)
    ∧ ((∀ s0, PollResponse.ok s0 ∈ trace → s0.isTerminal = false) →
        pollUntilDone jobId R trace = none)
    ∧ (∀ pre s0 rest, trace = pre ++ PollResponse.ok s0 :: rest →
        s0.isTerminal = true →
        (∀ s1, PollResponse.ok s1 ∈ pre → s1.isTerminal = false) →
        pollUntilDone jobId R trace = some (s0, setStatus jobId s0 R)) := by
  refine ⟨fun rest => rfl, ?_, ?_, ?_, ?_⟩
  · intro s R' h
    obtain ⟨hterm, h2⟩ := pollUntilDone_eq_some jobId R trace s R' h
    exact ⟨(Status.isTerminal_iff s).mpr hterm, h2⟩
  · intro s0 hmem hterm
    exact pollUntilDone_isSome_of_terminal jobId R trace s0 hmem
      ((Status.isTerminal_iff s0).mp hterm)
  · intro hnone
    refine pollUntilDone_none_of_no_terminal jobId R trace ?_
    intro s0 hs0 hcontra
    have h1 := (Status.isTerminal_iff s0).mpr hcontra
    rw [hnone s0 hs0] at h1
    simp at h1
  · intro pre s0 rest htr hterm hpre
    subst htr
    refine pollUntilDone_first_terminal jobId R pre s0 rest ?_
      ((Status.isTerminal_iff s0).mp hterm)
    intro s1 hs1 h1
    have h2 := (Status.isTerminal_iff s1).mpr h1
    rw [hpre s1 hs1] at h2
    simp at h2

/-- Witness for C3: the trace error, `running`, `completed` resolves with
`completed`; the prefix without the terminal response does not resolve. -/
theorem pollUntilDone_resolution_witness :
    pollUntilDone "j1" Registry.empty [PollResponse.err, .ok .running, .ok .completed]
      = pollUntilDone "j1" Registry.empty [PollResponse.ok .running, .ok .completed]
    ∧ (Status.completed.isTerminal = true
        ∧ setStatus "j1" Status.completed Registry.empty
            = setStatus "j1" Status.completed Registry.empty)
    ∧ (pollUntilDone "j1" Registry.empty
        [PollResponse.err, .ok .running, .ok .completed]).isSome = true
    ∧ pollUntilDone "j1" Registry.empty [PollResponse.err, .ok .running] = none
    ∧ pollUntilDone "j1" Registry.empty [PollResponse.err, .ok .running, .ok .completed]
        = some (Status.completed, setStatus "j1" Status.completed Registry.empty) := by
  have hw1 := pollUntilDone_resolution "j1" Registry.empty
    [PollResponse.err, .ok .running, .ok .completed]
  have hw2 := pollUntilDone_resolution "j1" Registry.empty [PollResponse.err, .ok .running]
  refine ⟨hw1.1 [PollResponse.ok .running, .ok .completed],
    hw1.2.1 Status.completed (setStatus "j1" Status.completed Registry.empty) rfl,
    hw1.2.2.1 Status.completed (by decide) rfl,
    hw2.2.2.2.1 (by decide),
    hw1.2.2.2.2 [PollResponse.err, .ok .running] Status.completed [] rfl rfl (by decide)⟩

/-- C7 counterexample: after a stream is attached for `"j1"`, an unrecoverable
connection error does not release it — the error handler leaves the
identifier-to-stream entry in the side table, contradicting the claim that the
entry is removed on connection error. -/
theorem sseErrorHandler_keeps_entry :
    sseErrorHandler "j1" ((startSseForJob "j1" SseTable.empty).1) "j1" = true := by
  decide

/-- C7 (amended): the stream resource is released only on the server-signaled
`close` event — the close listener closes the connection and removes the
identifier's side-table entry, after which the identifier can be re-attached
(a new connection is opened) — while the connection-error handler is a
deliberate no-op that changes nothing. -/
theorem sse_release_on_close_only (jobId : String) (t : SseTable) :
    sseCloseHandler jobId t jobId = false
    ∧ sseErrorHandler jobId t = t
    ∧ (startSseForJob jobId (sseCloseHandler jobId t)).2 = true := by
  refine ⟨?_, rfl, ?_⟩
  · simp [sseCloseHandler, SseTable.set]
  · simp [startSseForJob, sseCloseHandler, SseTable.set]

/-- C8: `startSseForJob` is idempotent per job identifier — when a stream is
already recorded for `jobId`, the call leaves the side table unchanged and
opens no new connection, so at most one live stream exists per job identifier
at any time. -/
theorem startSseForJob_idempotent (jobId : String) (t : SseTable) :
    (t jobId = true → startSseForJob jobId t = (t, false))
    ∧ startSseForJob jobId (startSseForJob jobId t).1
        = ((startSseForJob jobId t).1, false) := by
  constructor
  · intro h
    simp [startSseForJob, h]
  · by_cases h : t jobId
    · simp [startSseForJob, h]
    · simp [startSseForJob, h, SseTable.set]

/-- Witness for C8 at a table already holding a stream for `"j1"`. -/
theorem startSseForJob_idempotent_witness :
    startSseForJob "j1" t8w = (t8w, false) :=
  (startSseForJob_idempotent "j1" t8w).1 (by decide)

/-- C9: the status poller's and output fetcher's registry writes are shallow
merges — writing `{status}`, `{output}` or `{output_error}` over an existing
entry changes only that field, leaving `logs` and every other field of the
entry unchanged, and leaves every other registry key untouched. -/
theorem registry_writes_shallow_merge (jobId : String) (j : JobEntry)
    (R : Registry) (s : Status) (agentName out : String) (h : R jobId = some j) :
    (setStatus jobId s R) jobId = some { j with status := some s }
    ∧ (fetchOutputAndAttach agentName jobId (.ok out) R) jobId
        = some { j with output := some out }
    ∧ (fetchOutputAndAttach agentName jobId .err R) jobId
        = some { j with output_error := some "Output not available yet" }
    ∧ (∀ k, k ≠ jobId →
        (setStatus jobId s R) k = R k
        ∧ (fetchOutputAndAttach agentName jobId (.ok out) R) k = R k
        ∧ (fetchOutputAndAttach agentName jobId .err R) k = R k) := by
  refine ⟨?_, ?_, ?_, ?_⟩
  · simp [setStatus, Registry.set_apply, h]
  · simp [fetchOutputAndAttach, Registry.set_apply, h]
  · simp [fetchOutputAndAttach, Registry.set_apply, h]
  · intro k hk
    exact ⟨by simp [setStatus, Registry.set_apply, hk],
      fetch_apply_ne _ _ _ _ _ hk, fetch_apply_ne _ _ _ _ _ hk⟩

/-- Witness for C9 on a concrete entry holding logs. -/
theorem registry_writes_shallow_merge_witness :
    (setStatus "j1" Status.completed R9w) "j1" = some { j9w with status := some .completed }
    ∧ (fetchOutputAndAttach "enrichment_agent" "j1" (.ok "out") R9w) "j1"
        = some { j9w with output := some "out" }
    ∧ (fetchOutputAndAttach "enrichment_agent" "j1" .err R9w) "j1"
        = some { j9w with output_error := some "Output not available yet" }
    ∧ (setStatus "j1" Status.completed R9w) "j2" = R9w "j2" := by
  have hw := registry_writes_shallow_merge "j1" j9w R9w Status.completed
    "enrichment_agent" "out" (by decide)
  exact ⟨hw.1, hw.2.1, hw.2.2.1, (hw.2.2.2 "j2" (by decide)).1⟩

/-- C10: every status value the poller writes into the registry is terminal —
`pollUntilDone` performs exactly one write, of the terminal status it
returns, never recording the intermediate `queued`/`running` it observes —
and across the page's registry writes (with the poller restricted to its
terminal writes), an entry's status newly becomes `running` only through a
stream message for that job id and newly becomes `queued` only through entry
creation for that job id. -/
theorem poller_writes_terminal_only (R : Registry) (jobId : String)
    (trace : List PollResponse) :
    (∀ s R', pollUntilDone jobId R trace = some (s, R') →
        (s = .completed ∨ s = .failed) ∧ R' = setStatus jobId s R)
    ∧ (∀ st : Step, st.terminalPollsOnly → ∀ k,
        ((∀ d, st ≠ .message k d) →
          (Step.apply st R).statusOf k = some .running → R.statusOf k = some .running)
        ∧ ((∀ a, st ≠ .create k a) →
          (Step.apply st R).statusOf k = some .queued → R.statusOf k = some .queued)) := by
  refine ⟨pollUntilDone_eq_some jobId R trace, ?_⟩
  intro st hpoll k
  cases st with
  | create j a =>
    constructor
    · intro _ h2
      simp only [Step.apply, Registry.statusOf_set] at h2
      by_cases hk : k = j
      · rw [if_pos hk] at h2
        simp at h2
      · rw [if_neg hk] at h2
        exact h2
    · intro hne h2
      by_cases hk : k = j
      · subst hk
        exact absurd rfl (hne a)
      · simp only [Step.apply, Registry.statusOf_set, if_neg hk] at h2
        exact h2
  | message j d =>
    constructor
    · intro hne h2
      by_cases hk : k = j
      · subst hk
        exact absurd rfl (hne d)
      · simp only [Step.apply] at h2
        have heq := onMessage_apply_ne j d k R hk
        simp only [Registry.statusOf] at h2 ⊢
        rw [heq] at h2
        exact h2
    · intro _ h2
      by_cases hk : k = j
      · subst hk
        simp only [Step.apply] at h2
        rw [onMessage_statusOf] at h2
        by_cases hw : emptyOrWs (jsTrim d) = true
        · rw [if_pos hw] at h2
          exact h2
        · rw [if_neg hw, if_pos rfl] at h2
          cases hst : R.statusOf k with
          | none =>
            rw [hst] at h2
            simp [jsOrStatus] at h2
          | some x =>
            rw [hst] at h2
            simp only [jsOrStatus, Option.some.injEq] at h2
            rw [h2]
      · simp only [Step.apply] at h2
        have heq := onMessage_apply_ne j d k R hk
        simp only [Registry.statusOf] at h2 ⊢
        rw [heq] at h2
        exact h2
  | pollWrite j s =>
    have hterm : s.isTerminal = true := hpoll
    constructor
    · intro _ h2
      simp only [Step.apply, setStatus_statusOf] at h2
      by_cases hk : k = j
      · rw [if_pos hk] at h2
        simp only [Option.some.injEq] at h2
        subst h2
        simp [Status.isTerminal] at hterm
      · rw [if_neg hk] at h2
        exact h2
    · intro _ h2
      simp only [Step.apply, setStatus_statusOf] at h2
      by_cases hk : k = j
      · rw [if_pos hk] at h2
        simp only [Option.some.injEq] at h2
        subst h2
        simp [Status.isTerminal] at hterm
      · rw [if_neg hk] at h2
        exact h2
  | fetchAttach a j res =>
    constructor
    · intro _ h2
      simp only [Step.apply] at h2
      rw [fetch_statusOf] at h2
      by_cases hk : k = j
      · rw [if_pos hk] at h2
        cases hRj : R j with
        | none =>
          rw [hRj] at h2
          simp at h2
        | some e =>
          rw [hRj] at h2
          simp only [Registry.statusOf]
          rw [hk, hRj]
          exact h2
      · rw [if_neg hk] at h2
        exact h2
    · intro _ h2
      simp only [Step.apply] at h2
      rw [fetch_statusOf] at h2
      by_cases hk : k = j
      · rw [if_pos hk] at h2
        cases hRj : R j with
        | none =>
          rw [hRj] at h2
          simp at h2
        | some e =>
          rw [hRj] at h2
          simp only [Registry.statusOf]
          rw [hk, hRj]
          exact h2
      · rw [if_neg hk] at h2
        exact h2

/-- Witness for C10: the poller's write of an observed `completed`; a message
for another job leaves a running entry running; a terminal poll write for
another job leaves a queued entry queued. -/
theorem poller_writes_terminal_only_witness :
    ((Status.completed = Status.completed ∨ Status.completed = Status.failed)
      ∧ setStatus "j1" Status.completed Registry.empty
          = setStatus "j1" Status.completed Registry.empty)
    ∧ R10w.statusOf "j1" = some Status.running
    ∧ R10q.statusOf "j1" = some Status.queued := by
  have hw1 := poller_writes_terminal_only Registry.empty "j1" [.ok .completed]
  have hw2 := poller_writes_terminal_only R10w "j1" []
  have hw3 := poller_writes_terminal_only R10q "j1" []
  refine ⟨hw1.1 Status.completed (setStatus "j1" Status.completed Registry.empty) rfl, ?_, ?_⟩
  · refine (hw2.2 (.message "j2" "hi") trivial "j1").1 ?_ (by decide)
    intro d hcon
    injection hcon with h1 _
    exact absurd h1 (by decide)
  · exact (hw3.2 (.pollWrite "j2" .completed) rfl "j1").2
      (fun a hcon => Step.noConfusion hcon) (by decide)

/-- C4: a stage whose polled status resolves `failed`, or whose output fetch
fails, does not abort the remaining pipeline stages: whenever every stage's
poll trace resolves — with no assumption that any stage succeeds — the loop
runs to the end without an alert and every stage's own job entry is present;
the only alerting path is the start-pipeline request throwing, which aborts
before any stage runs. -/
theorem runPipeline_partial_failure (R : Registry) (t : SseTable)
    (stages : List StageEnv) :
    runPipeline (.error ()) R t = some ⟨R, t, true, []⟩
    ∧ (∀ out, runPipeline (.ok stages) R t = some out →
        out.alerted = false ∧ ∀ st ∈ stages, (out.jobs st.job_id).isSome = true)
    ∧ ((∀ st ∈ stages, ∃ s, PollResponse.ok s ∈ st.pollTrace ∧ s.isTerminal = true) →
        (runPipeline (.ok stages) R t).isSome = true) := by
  refine ⟨rfl, ?_, ?_⟩
  · intro out h
    rw [runPipeline_ok_eq] at h
    split at h
    · simp at h
    · rename_i Rf tf tr hr
      simp only [Option.some.injEq] at h
      subst h
      exact ⟨rfl, fun st hst => runStages_stage_entries stages 0 R t Rf tf tr hr st hst⟩
  · intro hres
    rw [runPipeline_ok_eq]
    split
    · rename_i hr
      have hs := runStages_isSome stages 0 R t hres
      rw [hr] at hs
      simp at hs
    · simp

/-- Witness for C4: a pipeline whose first stage fails and whose first fetch
errors still runs the second stage, records both entries, and never alerts. -/
theorem runPipeline_partial_failure_witness :
    runPipeline (.error ()) Registry.empty SseTable.empty
      = some ⟨Registry.empty, SseTable.empty, true, []⟩
    ∧ out4w.alerted = false
    ∧ (out4w.jobs "j1").isSome = true
    ∧ (out4w.jobs "j2").isSome = true
    ∧ (runPipeline (.ok stages4w) Registry.empty SseTable.empty).isSome = true := by
  have hw := runPipeline_partial_failure Registry.empty SseTable.empty stages4w
  have h2 := hw.2.1 out4w rfl
  refine ⟨hw.1, h2.1, ?_, ?_, hw.2.2 (by decide)⟩
  · exact h2.2 ⟨"j1", "enrichment_agent", [.ok .failed], .err⟩ (by decide)
  · exact h2.2 ⟨"j2", "scoring_agent", [.err, .ok .completed], .ok "out"⟩ (by decide)

/-- C5: within a pipeline run the stages execute strictly in sequence with no
overlap — the event trace of a resolved run is exactly the per-stage blocks
started → pollResolved → fetchResolved in stage order, and in particular every
event of stage `i + 1` (including the actions that start it) occurs strictly
after stage `i`'s output fetch resolves. -/
theorem runPipeline_sequencing (stages : List StageEnv) (R : Registry)
    (t : SseTable) (out : PipeResult)
    (h : runPipeline (.ok stages) R t = some out) :
    out.trace = (List.range stages.length).flatMap stageEvents
    ∧ (∀ (p q i : Nat) (e : EventKind),
        out.trace[p]? = some (i, EventKind.fetchResolved) →
        out.trace[q]? = some (i + 1, e) → p < q) := by
  have htr : out.trace = (List.range stages.length).flatMap stageEvents := by
    rw [runPipeline_ok_eq] at h
    split at h
    · simp at h
    · rename_i Rf tf tr hr
      simp only [Option.some.injEq] at h
      subst h
      have h3 := runStages_trace stages 0 R t Rf tf tr hr
      simpa using h3
  refine ⟨htr, ?_⟩
  intro p q i e hp hq
  rw [htr, stageBlocks_getElem] at hp hq
  by_cases h1 : p < 3 * stages.length
  case neg =>
    rw [if_neg h1] at hp
    exact absurd hp (by simp)
  rw [if_pos h1] at hp
  by_cases h2 : q < 3 * stages.length
  case neg =>
    rw [if_neg h2] at hq
    exact absurd hq (by simp)
  rw [if_pos h2] at hq
  simp only [Option.some.injEq, Prod.mk.injEq] at hp hq
  obtain ⟨hpi, hpk⟩ := hp
  obtain ⟨hqi, -⟩ := hq
  have hp2 : p % 3 = 2 := by
    have h3 : p % 3 = 0 ∨ p % 3 = 1 ∨ p % 3 = 2 := by omega
    rcases h3 with h3 | h3 | h3
    · rw [h3] at hpk
      exact absurd hpk (by decide)
    · rw [h3] at hpk
      exact absurd hpk (by decide)
    · exact h3
  omega

/-- Witness for C5 on a concrete two-stage pipeline: the trace is the two
blocks in order, and the first stage's fetchResolved (position 2) precedes the
second stage's started (position 3). -/
theorem runPipeline_sequencing_witness :
    out5w.trace = (List.range stages5w.length).flatMap stageEvents
    ∧ 2 < 3 := by
  have hw := runPipeline_sequencing stages5w Registry.empty SseTable.empty out5w rfl
  exact ⟨hw.1, hw.2 2 3 0 EventKind.started (by decide) (by decide)⟩

/-- C6 counterexample: under `env6` the poller resolves `failed`, yet the
output fetch still runs and succeeds, attaching `output` to the failed job's
entry — contradicting the claim that a job whose observed terminal status is
`failed` never has `output` set. -/
theorem runAgent_failed_job_gets_output :
    (runAgent "scoring_agent" env6 Registry.empty SseTable.empty).isSome = true
    ∧ res6.jobs.statusOf "j1" = some .failed
    ∧ res6.jobs.outputOf "j1" = some "out" := by
  refine ⟨rfl, ?_, ?_⟩ <;> decide

/-- C6 (amended): for a run whose start request returns `jobId`, the entry's
`output` is still absent right after the poller's terminal write — before the
output fetch resolves — and after the fetch it is attached exactly when the
fetch succeeded (with the fetched payload), while a failed fetch sets only
`output_error`; the fetch is issued after any terminal status, so attachment
is governed by fetch success, not by the status being `completed`. -/
theorem runAgent_output_attachment (agentName : String) (env : RunEnv)
    (R : Registry) (t : SseTable) (jobId : String) (h : env.start = .ok jobId) :
    (∀ s R2, pollUntilDone jobId
        (R.set jobId { status := some .queued, logs := [], agent := some agentName })
        env.pollTrace = some (s, R2) →
      s.isTerminal = true ∧ R2.outputOf jobId = none)
    ∧ (∀ res, runAgent agentName env R t = some res →
        res.alerted = false
        ∧ res.jobs.outputOf jobId
            = (match env.fetch with | .ok o => some o | .err => none)
        ∧ res.jobs.outputErrorOf jobId
            = (match env.fetch with | .ok _ => none | .err => some "Output not available yet")) := by
  obtain ⟨start, ptr, f⟩ := env
  simp only at h
  subst h
  constructor
  · intro s R2 hp
    obtain ⟨hterm, rfl⟩ := pollUntilDone_eq_some jobId _ ptr s R2 hp
    refine ⟨(Status.isTerminal_iff s).mpr hterm, ?_⟩
    rw [setStatus_outputOf]
    simp [Registry.outputOf, Registry.set_apply]
  · intro res hres
    simp only [runAgent] at hres
    split at hres
    · simp at hres
    · rename_i s0 R2 hp
      simp only [Option.some.injEq] at hres
      subst hres
      obtain ⟨-, rfl⟩ := pollUntilDone_eq_some jobId _ ptr s0 R2 hp
      refine ⟨rfl, ?_, ?_⟩ <;>
        cases f <;>
          simp [fetchOutputAndAttach, setStatus, Registry.outputOf,
            Registry.outputErrorOf, Registry.set_apply]

/-- Witness for C6 on `env6b`: the terminal write leaves `output` unset, and
the failing fetch sets `output_error` while leaving `output` unset. -/
theorem runAgent_output_attachment_witness :
    (Status.completed.isTerminal = true
      ∧ (setStatus "j2" Status.completed R6b).outputOf "j2" = none)
    ∧ (res6b.alerted = false
        ∧ res6b.jobs.outputOf "j2" = none
        ∧ res6b.jobs.outputErrorOf "j2" = some "Output not available yet") := by
  have hw := runAgent_output_attachment "contact_finder" env6b Registry.empty
    SseTable.empty "j2" rfl
  exact ⟨hw.1 Status.completed (setStatus "j2" Status.completed R6b) rfl,
    hw.2 res6b rfl⟩

end AgentsPage
